import Mathlib

/-!
# DHT-Go: the response loop of `main.go`

A shallow embedding of the goroutine of `main` that reads the responses of the
DHT wire (`for resp := range w.Response()`), decodes each response's metadata,
builds a `bitTorrent` value from the decoded dictionary and hands it to the JSON
printer.

Modelling choices, all taken from `src/main.go`:

* a decoded value (`interface{}` returned by `dht.Decode`) is one of `int`, `string`,
  `[]interface{}` and `map[string]interface{}`: the inductive type `Value`;
* a Go map is a list of key/value pairs read by its first matching key;
* a Go string is only copied and compared with the literal keys `"name"`, `"files"`,
  `"length"` and `"path"`, so it is a `String`; a Go `int` is only copied, so it is an `Int`;
* a byte is a `Fin 256`;
* an unchecked type assertion `x.(T)` on a value of another dynamic type (or on the nil
  interface a missing map key yields) panics; nothing in `main.go` recovers, so the panic
  ends the process. This is the outcome `panicked`;
* `dht.Decode` belongs to the imported library `github.com/shiyanhui/dht`; it is a
  parameter `Decode` of the loop, and every theorem holds for every decoder;
* the channel `w.Response()` is filled by the metadata-fetch engine of the same library,
  which is not under `src/`; `main.go` itself compares no digest. The hash validation that
  engine performs before it hands a response over (spec, section 4.5, state `Validating`)
  is modelled from the spec: `sha1`, `Session`, `validate` and `wireResponses`;
* the record stream is the sequence of `bitTorrent` values handed to `json.Marshal` and
  `fmt.Printf` (lines 80-83); the values a `bitTorrent` built here can hold
  (strings, ints, slices and string-keyed maps) are all supported by `json.Marshal`.
-/

namespace DHTGo

/-- One byte of a Go `[]byte`. -/
abbrev Byte := Fin 256

/-- The dynamic values `dht.Decode` returns as `interface{}`:
`int`, `string`, `[]interface{}` and `map[string]interface{}`. -/
inductive Value where
  | int (n : Int)
  | str (s : String)
  | list (items : List Value)
  | dict (entries : List (String × Value))

/-- The Go type `map[string]interface{}`. -/
abbrev Dict := List (String × Value)

/-- Map read `m[key]` in its two-result form `v, ok := m[key]`:
`none` stands for `ok == false` (and the nil interface as `v`). -/
def Dict.get (m : Dict) (key : String) : Option Value :=
  match m with
  | [] => none
  | (k, v) :: rest => if k = key then some v else Dict.get rest key

/-- Struct `file` (lines 14-17). -/
structure file where
  Path : List Value
  Length : Int

/-- Struct `bitTorrent` (lines 20-25). A nil or empty `Files` is `[]`, an unset
`Length` is the zero value `0`. -/
structure bitTorrent where
  InfoHash : String
  Name : String
  Files : List file
  Length : Int

/-- What the loop reads from `w.Response()`: the info-hash of the request and the
metadata bytes fetched for it, the two fields of a response that the loop uses
(`resp.InfoHash`, line 57, and `resp.MetadataInfo`, line 42). -/
structure Response where
  InfoHash : List Byte
  MetadataInfo : List Byte

/-- The lookup table of `encoding/hex`. -/
def hextable : List Char := "0123456789abcdef".toList

/-- Function `hex.EncodeToString`: two characters per byte, `hextable[v>>4]` then
`hextable[v&0x0f]`. -/
def EncodeToString (src : List Byte) : String :=
  String.mk (src.flatMap fun v => [hextable.getD (v.val / 16) '0', hextable.getD (v.val % 16) '0'])

/-- Type assertion `x.(string)`; `none` is the panic. The argument is `none` for the nil
interface. -/
def assertString : Option Value → Option String
  | some (.str s) => some s
  | _ => none

/-- Type assertion `x.(int)`; `none` is the panic. -/
def assertInt : Option Value → Option Int
  | some (.int n) => some n
  | _ => none

/-- Type assertion `x.([]interface{})`; `none` is the panic. -/
def assertList : Option Value → Option (List Value)
  | some (.list items) => some items
  | _ => none

/-- Type assertion `x.(map[string]interface{})`; `none` is the panic. -/
def assertMap : Option Value → Option Dict
  | some (.dict entries) => some entries
  | _ => none

/-- Body of the loop over `files` (lines 68-72): `item.(map[string]interface{})`, then
`f["path"].([]interface{})` and `f["length"].(int)`. `none` is a panic. -/
def convertFile (item : Value) : Option file :=
  match assertMap (some item) with
  | none => none
  | some f =>
    match assertList (Dict.get f "path") with
    | none => none
    | some path =>
      match assertInt (Dict.get f "length") with
      | none => none
      | some length => some { Path := path, Length := length }

/-- The loop `for i, item := range files` (lines 67-73) filling `bt.Files[i]` in index
order; the first failing assertion panics. -/
def convertFiles : List Value → Option (List file)
  | [] => some []
  | item :: rest =>
    match convertFile item with
    | none => none
    | some f =>
      match convertFiles rest with
      | none => none
      | some fs => some (f :: fs)

/-- What one iteration of the loop over the responses does. -/
inductive Outcome where
  /-- One of the two `continue` statements: nothing is printed, the next response is read. -/
  | skipped
  /-- The iteration reached line 80 with this value of `bt`. -/
  | emitted (bt : bitTorrent)
  /-- A type assertion failed: the goroutine panics and the process ends. -/
  | panicked

/-- One iteration of `for resp := range w.Response()` (lines 40-84). -/
def processResponse (Decode : List Byte → Except String Value) (resp : Response) : Outcome :=
  match Decode resp.MetadataInfo with
  | .error _ => .skipped
  | .ok metadata =>
    match assertMap (some metadata) with
    | none => .panicked
    | some info =>
      match Dict.get info "name" with
      | none => .skipped
      | some nameValue =>
        match assertString (some nameValue) with
        | none => .panicked
        | some name =>
          let bt : bitTorrent :=
            { InfoHash := EncodeToString resp.InfoHash, Name := name, Files := [], Length := 0 }
          match Dict.get info "files" with
          | some v =>
            match assertList (some v) with
            | none => .panicked
            | some files =>
              match convertFiles files with
              | none => .panicked
              | some fs => .emitted { bt with Files := fs }
          | none =>
            match Dict.get info "length" with
            | some lengthValue =>
              match assertInt (some lengthValue) with
              | none => .panicked
              | some length => .emitted { bt with Length := length }
            | none => .emitted bt

/-- The record an iteration hands to the printer, if any. -/
def Outcome.record : Outcome → Option bitTorrent
  | .emitted bt => some bt
  | _ => none

/-- Whether the iteration ended in a panic. -/
def Outcome.isPanic : Outcome → Bool
  | .panicked => true
  | _ => false

/-- The state of the process after a finite sequence of responses: the records printed so
far, in print order, and whether the process was ended by a panic. -/
structure Run where
  records : List bitTorrent
  aborted : Bool

/-- The loop `for resp := range w.Response()` on a finite sequence of responses, in
arrival order. A panic ends the process: the responses after it are never read. -/
def run (Decode : List Byte → Except String Value) : List Response → Run
  | [] => { records := [], aborted := false }
  | resp :: rest =>
    match processResponse Decode resp with
    | .skipped => run Decode rest
    | .emitted bt =>
      let r := run Decode rest
      { records := bt :: r.records, aborted := r.aborted }
    | .panicked => { records := [], aborted := true }

/-- The bytes of an ASCII text, as the wire delivers them. -/
def bytesOf (text : String) : List Byte :=
  text.toList.map fun c => Fin.ofNat c.toNat

/-- The dictionary `{"name": "a.txt", "length": 100}`. -/
def singleFileDict : Dict := [("length", .int 100), ("name", .str "a.txt")]

/-- The dictionary `{"name": "a"}`: a name and neither `files` nor `length`. -/
def nameOnlyDict : Dict := [("name", .str "a")]

/-- The dictionary `{"files": [{"length": 3, "path": ["x"]}, {"length": 4, "path": ["y", "z"]}],
"name": "d"}`. -/
def multiFileDict : Dict :=
  [("files", .list [.dict [("length", .int 3), ("path", .list [.str "x"])],
                    .dict [("length", .int 4), ("path", .list [.str "y", .str "z"])]]),
   ("name", .str "d")]

/-- The dictionary `{"files": [{"length": 3, "path": ["x"]}], "length": 9, "name": "d"}`:
both `files` and `length`. -/
def bothKeysDict : Dict :=
  [("files", .list [.dict [("length", .int 3), ("path", .list [.str "x"])]]),
   ("length", .int 9), ("name", .str "d")]

/-- A decoder for the sample inputs of this file: the bencoding of each sample value is
decoded to that value, every other input is a decoding error. -/
def sampleDecode (data : List Byte) : Except String Value :=
  if data = bytesOf "d6:lengthi100e4:name5:a.txte" then .ok (.dict singleFileDict)
  else if data = bytesOf "d4:name1:ae" then .ok (.dict nameOnlyDict)
  else if data = bytesOf "d5:filesld6:lengthi3e4:pathl1:xeed6:lengthi4e4:pathl1:y1:zeee4:name1:de" then
    .ok (.dict multiFileDict)
  else if data = bytesOf "d5:filesld6:lengthi3e4:pathl1:xeee6:lengthi9e4:name1:de" then
    .ok (.dict bothKeysDict)
  else if data = bytesOf "de" then .ok (.dict [])
  else if data = bytesOf "i1e" then .ok (.int 1)
  else .error "invalid bencode"

/-- A response carrying the bencoding of `{"name": "a.txt", "length": 100}`. -/
def singleFileResponse : Response :=
  { InfoHash := [0xde, 0xad, 0xbe, 0xef], MetadataInfo := bytesOf "d6:lengthi100e4:name5:a.txte" }

/-- A response carrying the bencoding of `{"name": "a"}`, with twenty zero bytes as
info-hash. -/
def nameOnlyResponse : Response :=
  { InfoHash := List.replicate 20 0, MetadataInfo := bytesOf "d4:name1:ae" }

/-- The same metadata as `nameOnlyResponse` under another info-hash: twenty bytes `01`. -/
def nameOnlyResponse1 : Response :=
  { InfoHash := List.replicate 20 1, MetadataInfo := bytesOf "d4:name1:ae" }

/-- A response carrying the bencoding of `multiFileDict`. -/
def multiFileResponse : Response :=
  { InfoHash := [0x01, 0x23],
    MetadataInfo := bytesOf "d5:filesld6:lengthi3e4:pathl1:xeed6:lengthi4e4:pathl1:y1:zeee4:name1:de" }

/-- A response carrying the bencoding of `bothKeysDict`. -/
def bothKeysResponse : Response :=
  { InfoHash := [0xff],
    MetadataInfo := bytesOf "d5:filesld6:lengthi3e4:pathl1:xeee6:lengthi9e4:name1:de" }

/-- A response carrying the bencoding `de` of the empty dictionary. -/
def emptyDictResponse : Response :=
  { InfoHash := [0x00], MetadataInfo := bytesOf "de" }

/-- A response whose metadata is the bencoded integer `i1e`. -/
def integerResponse : Response :=
  { InfoHash := [0x00], MetadataInfo := bytesOf "i1e" }

/-- A response whose metadata is not bencode. -/
def garbageResponse : Response :=
  { InfoHash := [0x00], MetadataInfo := bytesOf "x" }

/-- Input shape of one entry of `files`: a dictionary with a list `path` and an integer
`length`. -/
def FileEntryShape (item : Value) : Prop :=
  ∃ f p l, item = .dict f ∧ Dict.get f "path" = some (.list p) ∧ Dict.get f "length" = some (.int l)

/-- The field `Files` of `bt` was filled by the `files` branch (lines 62-73). -/
def FilledFromFiles (info : Dict) (bt : bitTorrent) : Prop :=
  ∃ items, Dict.get info "files" = some (.list items) ∧ convertFiles items = some bt.Files

/-- The field `Length` of `bt` was filled by the `length` branch (lines 74-77), which is
entered only when there is no `files` key. -/
def FilledFromLength (info : Dict) (bt : bitTorrent) : Prop :=
  Dict.get info "files" = none ∧ Dict.get info "length" = some (.int bt.Length)

/-- The decoded values on which no type assertion of the loop body fails: a dictionary
that has no `name`, or has a string `name` and either a `files` list whose entries all
have the shape `FileEntryShape`, or no `files` and a `length` that is absent or an integer. -/
def WellTyped (metadata : Value) : Prop :=
  ∃ info, metadata = .dict info ∧
    (Dict.get info "name" = none ∨
      ((∃ n, Dict.get info "name" = some (.str n)) ∧
        ((∃ items, Dict.get info "files" = some (.list items) ∧ ∀ item ∈ items, FileEntryShape item) ∨
          (Dict.get info "files" = none ∧
            (Dict.get info "length" = none ∨ ∃ l, Dict.get info "length" = some (.int l))))))

/-- Modelled from the spec: left rotation of a 32-bit word, a step of the SHA-1 digest
(the digest function `crypto/sha1` that the metadata-fetch engine calls is not under `src/`). -/
def rotl32 (x n : Nat) : Nat :=
  ((x <<< n) ||| (x >>> (32 - n))) % 2 ^ 32

/-- Modelled from the spec: the padding of SHA-1 (missing: `crypto/sha1`): the byte `80`,
zero bytes up to 56 modulo 64, then the bit length of the message as eight big-endian bytes. -/
def sha1Pad (msg : List Nat) : List Nat :=
  msg ++ [0x80] ++ List.replicate ((55 + 64 - msg.length % 64) % 64) 0
    ++ (List.range 8).map fun i => (8 * msg.length) / 2 ^ (8 * (7 - i)) % 256

/-- Modelled from the spec: the first `n` big-endian 32-bit words of a block of SHA-1
(missing: `crypto/sha1`). -/
def sha1Words : Nat → List Nat → List Nat
  | 0, _ => []
  | n + 1, b0 :: b1 :: b2 :: b3 :: rest =>
    (b0 * 2 ^ 24 + b1 * 2 ^ 16 + b2 * 2 ^ 8 + b3) :: sha1Words n rest
  | _ + 1, _ => []

/-- Modelled from the spec: the message schedule of SHA-1 (missing: `crypto/sha1`), kept
with the most recent word first: `n` more words, each the rotation by one of the exclusive
or of the words 3, 8, 14 and 16 places back. -/
def sha1Schedule : Nat → List Nat → List Nat
  | 0, ws => ws
  | n + 1, ws =>
    sha1Schedule n
      (rotl32 (ws.getD 2 0 ^^^ ws.getD 7 0 ^^^ ws.getD 13 0 ^^^ ws.getD 15 0) 1 :: ws)

/-- Modelled from the spec: the five 32-bit working words of SHA-1 (missing: `crypto/sha1`). -/
structure Sha1State where
  a : Nat
  b : Nat
  c : Nat
  d : Nat
  e : Nat

/-- Modelled from the spec: round `t` of the compression function of SHA-1 on the schedule
word `w` (missing: `crypto/sha1`). -/
def sha1Round (t : Nat) (w : Nat) (s : Sha1State) : Sha1State :=
  let f :=
    if t < 20 then (s.b &&& s.c) ||| ((s.b ^^^ 0xffffffff) &&& s.d)
    else if t < 40 then s.b ^^^ s.c ^^^ s.d
    else if t < 60 then (s.b &&& s.c) ||| (s.b &&& s.d) ||| (s.c &&& s.d)
    else s.b ^^^ s.c ^^^ s.d
  let k :=
    if t < 20 then 0x5a827999 else if t < 40 then 0x6ed9eba1
    else if t < 60 then 0x8f1bbcdc else 0xca62c1d6
  { a := (rotl32 s.a 5 + f + s.e + k + w) % 2 ^ 32, b := s.a, c := rotl32 s.b 30, d := s.c,
    e := s.d }

/-- Modelled from the spec: the rounds of SHA-1 over the schedule words, from round `t` on
(missing: `crypto/sha1`). -/
def sha1Rounds : Nat → List Nat → Sha1State → Sha1State
  | _, [], s => s
  | t, w :: ws, s => sha1Rounds (t + 1) ws (sha1Round t w s)

/-- Modelled from the spec: the compression of one 64-byte block into the chaining value of
SHA-1 (missing: `crypto/sha1`). -/
def sha1Block (h : Sha1State) (block : List Nat) : Sha1State :=
  let s := sha1Rounds 0 (sha1Schedule 64 (sha1Words 16 block).reverse).reverse h
  { a := (h.a + s.a) % 2 ^ 32, b := (h.b + s.b) % 2 ^ 32, c := (h.c + s.c) % 2 ^ 32,
    d := (h.d + s.d) % 2 ^ 32, e := (h.e + s.e) % 2 ^ 32 }

/-- Modelled from the spec: the compression of the first `n` blocks of the padded message
(missing: `crypto/sha1`). -/
def sha1Blocks : Nat → List Nat → Sha1State → Sha1State
  | 0, _, h => h
  | n + 1, data, h => sha1Blocks n (data.drop 64) (sha1Block h (data.take 64))

/-- Modelled from the spec: the four big-endian bytes of a 32-bit word (missing:
`crypto/sha1`). -/
def be32 (x : Nat) : List Byte :=
  [Fin.ofNat (x / 2 ^ 24), Fin.ofNat (x / 2 ^ 16), Fin.ofNat (x / 2 ^ 8), Fin.ofNat x]

/-- Modelled from the spec: the SHA-1 digest of a byte string, twenty bytes. Missing from
`src/`: the function `crypto/sha1` that the metadata-fetch engine calls to validate the
reassembled metadata (spec, sections 3 and 4.5). -/
def sha1 (msg : List Byte) : List Byte :=
  let data := sha1Pad (msg.map fun b => b.val)
  let h := sha1Blocks (data.length / 64) data
    { a := 0x67452301, b := 0xefcdab89, c := 0x98badcfe, d := 0x10325476, e := 0xc3d2e1f0 }
  be32 h.a ++ be32 h.b ++ be32 h.c ++ be32 h.d ++ be32 h.e

/-- Modelled from the spec: a metadata session that has received all its pieces (spec,
section 3, `MetadataSession`): the info-hash it was started for and the metadata bytes
reassembled in index order. Missing from `src/`: the metadata-fetch engine of the library. -/
structure Session where
  InfoHash : List Byte
  Metadata : List Byte

/-- Modelled from the spec: state `Validating` of a metadata session (spec, section 4.5):
the SHA-1 digest of the reassembled metadata has to equal the session's info-hash byte for
byte; on a mismatch the session fails and nothing is handed on, otherwise the response
reaches the channel `w.Response()`. Missing from `src/`: the metadata-fetch engine of the
library, which `main.go` only calls (`dht.NewWire`, `w.Response()`, `w.Request`). Only the
digest comparison is modelled: the decoding is done again by the loop (line 42). -/
def validate (s : Session) : Option Response :=
  if sha1 s.Metadata = s.InfoHash then
    some { InfoHash := s.InfoHash, MetadataInfo := s.Metadata }
  else none

/-- Modelled from the spec: the responses on the channel `w.Response()` for a finite
sequence of sessions, in the order the sessions finish: those that pass `validate`.
Missing from `src/`: the metadata-fetch engine of the library. -/
def wireResponses (sessions : List Session) : List Response :=
  sessions.filterMap validate

/-- A session for the metadata `d4:name1:ae` under the SHA-1 digest of these bytes,
`9e3f71178c577dcb032d2d7dfbb436d21769d456`. -/
def honestSession : Session :=
  { InfoHash := [0x9e, 0x3f, 0x71, 0x17, 0x8c, 0x57, 0x7d, 0xcb, 0x03, 0x2d,
                 0x2d, 0x7d, 0xfb, 0xb4, 0x36, 0xd2, 0x17, 0x69, 0xd4, 0x56],
    Metadata := bytesOf "d4:name1:ae" }

/-- A session whose peer served the metadata `d4:name1:ae` for an info-hash of twenty zero
bytes, which is not the digest of these bytes. -/
def forgedSession : Session :=
  { InfoHash := List.replicate 20 0, Metadata := bytesOf "d4:name1:ae" }

theorem sampleDecode_singleFile :
    sampleDecode singleFileResponse.MetadataInfo = .ok (.dict singleFileDict) := by
  rfl

theorem sampleDecode_nameOnly :
    sampleDecode nameOnlyResponse.MetadataInfo = .ok (.dict nameOnlyDict) := by
  rfl

theorem sampleDecode_multiFile :
    sampleDecode multiFileResponse.MetadataInfo = .ok (.dict multiFileDict) := by
  rfl

theorem sampleDecode_bothKeys :
    sampleDecode bothKeysResponse.MetadataInfo = .ok (.dict bothKeysDict) := by
  rfl

theorem sampleDecode_emptyDict :
    sampleDecode emptyDictResponse.MetadataInfo = .ok (.dict []) := by
  rfl

theorem sampleDecode_integer :
    sampleDecode integerResponse.MetadataInfo = .ok (.int 1) := by
  rfl

theorem sampleDecode_garbage :
    sampleDecode garbageResponse.MetadataInfo = .error "invalid bencode" := by
  rfl

theorem convertFile_iff (item : Value) (e : file) :
    convertFile item = some e ↔
      ∃ f, item = .dict f ∧ Dict.get f "path" = some (.list e.Path)
        ∧ Dict.get f "length" = some (.int e.Length) := by
  constructor
  · intro h
    cases item with
    | dict f =>
      refine ⟨f, rfl, ?_⟩
      simp only [convertFile, assertMap] at h
      cases hp : Dict.get f "path" with
      | none => simp [hp, assertList] at h
      | some pv =>
        cases pv with
        | list p =>
          cases hl : Dict.get f "length" with
          | none => simp [hp, hl, assertList, assertInt] at h
          | some lv =>
            cases lv with
            | int l =>
              simp [hp, hl, assertList, assertInt] at h
              subst h
              simp
            | str _ => simp [hp, hl, assertList, assertInt] at h
            | list _ => simp [hp, hl, assertList, assertInt] at h
            | dict _ => simp [hp, hl, assertList, assertInt] at h
        | int _ => simp [hp, assertList] at h
        | str _ => simp [hp, assertList] at h
        | dict _ => simp [hp, assertList] at h
    | int _ => simp [convertFile, assertMap] at h
    | str _ => simp [convertFile, assertMap] at h
    | list _ => simp [convertFile, assertMap] at h
  · rintro ⟨f, rfl, hp, hl⟩
    simp [convertFile, assertMap, assertList, assertInt, hp, hl]

theorem convertFile_isSome_iff (item : Value) :
    (∃ e, convertFile item = some e) ↔ FileEntryShape item := by
  constructor
  · rintro ⟨e, he⟩
    obtain ⟨f, hf, hp, hl⟩ := (convertFile_iff item e).1 he
    exact ⟨f, e.Path, e.Length, hf, hp, hl⟩
  · rintro ⟨f, p, l, hf, hp, hl⟩
    exact ⟨{ Path := p, Length := l }, (convertFile_iff item _).2 ⟨f, hf, hp, hl⟩⟩

theorem convertFiles_cons_eq_some (item : Value) (rest : List Value) (out : List file) :
    convertFiles (item :: rest) = some out ↔
      ∃ e fs, convertFile item = some e ∧ convertFiles rest = some fs ∧ out = e :: fs := by
  cases h1 : convertFile item with
  | none => simp [convertFiles, h1]
  | some e =>
    cases h2 : convertFiles rest with
    | none => simp [convertFiles, h1, h2]
    | some fs =>
      simp only [convertFiles, h1, h2, Option.some.injEq]
      constructor
      · intro h
        exact ⟨e, fs, rfl, rfl, h.symm⟩
      · rintro ⟨e2, fs2, he, hfs, hout⟩
        subst he hfs
        exact hout.symm

theorem convertFiles_of_shape (items : List Value) (h : ∀ item ∈ items, FileEntryShape item) :
    ∃ fs, convertFiles items = some fs := by
  induction items with
  | nil => exact ⟨[], rfl⟩
  | cons item rest ih =>
    obtain ⟨e, he⟩ := (convertFile_isSome_iff item).2 (h item (List.mem_cons_self _ _))
    obtain ⟨fs, hfs⟩ := ih (fun x hx => h x (List.mem_cons_of_mem _ hx))
    exact ⟨e :: fs, (convertFiles_cons_eq_some item rest _).2 ⟨e, fs, he, hfs, rfl⟩⟩

theorem shape_of_convertFiles (items : List Value) (fs : List file)
    (h : convertFiles items = some fs) : ∀ item ∈ items, FileEntryShape item := by
  induction items generalizing fs with
  | nil => intro item hmem; cases hmem
  | cons item rest ih =>
    obtain ⟨e, fs2, he, hfs, _⟩ := (convertFiles_cons_eq_some item rest fs).1 h
    intro x hx
    rcases List.mem_cons.1 hx with rfl | hx
    · exact (convertFile_isSome_iff _).1 ⟨e, he⟩
    · exact ih fs2 hfs x hx

theorem convertFiles_length (items : List Value) (fs : List file)
    (h : convertFiles items = some fs) : fs.length = items.length := by
  induction items generalizing fs with
  | nil =>
    simp [convertFiles] at h
    subst h
    rfl
  | cons item rest ih =>
    obtain ⟨e, fs2, _, hfs, rfl⟩ := (convertFiles_cons_eq_some item rest fs).1 h
    simp [ih fs2 hfs]

theorem convertFiles_getElem (items : List Value) (fs : List file)
    (h : convertFiles items = some fs) (i : Nat) (item : Value) (hi : items[i]? = some item) :
    ∃ e, fs[i]? = some e ∧ convertFile item = some e := by
  induction items generalizing fs i with
  | nil => simp at hi
  | cons x rest ih =>
    obtain ⟨e, fs2, he, hfs, rfl⟩ := (convertFiles_cons_eq_some x rest fs).1 h
    cases i with
    | zero =>
      simp at hi
      subst hi
      exact ⟨e, by simp, he⟩
    | succ k =>
      simp at hi
      obtain ⟨e2, h1, h2⟩ := ih fs2 hfs k hi
      exact ⟨e2, by simpa using h1, h2⟩

theorem processResponse_files_branch (Decode : List Byte → Except String Value) (resp : Response)
    (info : Dict) (n : String) (items : List Value) (fs : List file)
    (hdec : Decode resp.MetadataInfo = .ok (.dict info))
    (hname : Dict.get info "name" = some (.str n))
    (hfiles : Dict.get info "files" = some (.list items))
    (hconv : convertFiles items = some fs) :
    processResponse Decode resp
      = .emitted { InfoHash := EncodeToString resp.InfoHash, Name := n, Files := fs, Length := 0 } := by
  simp [processResponse, hdec, hname, hfiles, hconv, assertMap, assertString, assertList]

theorem emitted_infoHash_eq (Decode : List Byte → Except String Value) (resp : Response)
    (bt : bitTorrent) (hemit : processResponse Decode resp = .emitted bt) :
    bt.InfoHash = EncodeToString resp.InfoHash := by
  simp only [processResponse] at hemit
  cases hd : Decode resp.MetadataInfo with
  | error e => simp [hd] at hemit
  | ok metadata =>
    cases metadata with
    | int _ => simp [hd, assertMap] at hemit
    | str _ => simp [hd, assertMap] at hemit
    | list _ => simp [hd, assertMap] at hemit
    | dict info =>
      cases hn : Dict.get info "name" with
      | none => simp [hd, assertMap, hn] at hemit
      | some nv =>
        cases nv with
        | int _ => simp [hd, assertMap, assertString, hn] at hemit
        | list _ => simp [hd, assertMap, assertString, hn] at hemit
        | dict _ => simp [hd, assertMap, assertString, hn] at hemit
        | str n =>
          cases hf : Dict.get info "files" with
          | none =>
            cases hl : Dict.get info "length" with
            | none =>
              simp [hd, assertMap, assertString, hn, hf, hl] at hemit
              subst hemit
              rfl
            | some lv =>
              cases lv with
              | int l =>
                simp [hd, assertMap, assertString, assertInt, hn, hf, hl] at hemit
                subst hemit
                rfl
              | str _ => simp [hd, assertMap, assertString, assertInt, hn, hf, hl] at hemit
              | list _ => simp [hd, assertMap, assertString, assertInt, hn, hf, hl] at hemit
              | dict _ => simp [hd, assertMap, assertString, assertInt, hn, hf, hl] at hemit
          | some fv =>
            cases fv with
            | int _ => simp [hd, assertMap, assertString, assertList, hn, hf] at hemit
            | str _ => simp [hd, assertMap, assertString, assertList, hn, hf] at hemit
            | dict _ => simp [hd, assertMap, assertString, assertList, hn, hf] at hemit
            | list items =>
              cases hc : convertFiles items with
              | none => simp [hd, assertMap, assertString, assertList, hn, hf, hc] at hemit
              | some fs =>
                simp [hd, assertMap, assertString, assertList, hn, hf, hc] at hemit
                subst hemit
                rfl

/-- C1: if the metadata of a response decodes to a dictionary with a string `name` n, an
integer `length` l and no `files` key, the iteration emits the record with Name n,
Length l, no Files and the hexadecimal encoding of the info-hash as InfoHash. -/
theorem single_file_record (Decode : List Byte → Except String Value) (resp : Response)
    (info : Dict) (n : String) (l : Int)
    (hdec : Decode resp.MetadataInfo = .ok (.dict info))
    (hname : Dict.get info "name" = some (.str n))
    (hlen : Dict.get info "length" = some (.int l))
    (hfiles : Dict.get info "files" = none) :
    processResponse Decode resp
      = .emitted { InfoHash := EncodeToString resp.InfoHash, Name := n, Files := [], Length := l }
    ∧ (run Decode [resp]).records
      = [{ InfoHash := EncodeToString resp.InfoHash, Name := n, Files := [], Length := l }] := by
  have h : processResponse Decode resp
      = .emitted { InfoHash := EncodeToString resp.InfoHash, Name := n, Files := [], Length := l } := by
    simp [processResponse, hdec, hname, hlen, hfiles, assertMap, assertString, assertInt]
  exact ⟨h, by simp [run, h]⟩

/-- C1 at the dictionary `{"name": "a.txt", "length": 100}` with info-hash bytes
`de ad be ef`. -/
theorem single_file_record_witness :
    processResponse sampleDecode singleFileResponse
      = .emitted { InfoHash := "deadbeef", Name := "a.txt", Files := [], Length := 100 } :=
  (single_file_record sampleDecode singleFileResponse singleFileDict "a.txt" 100
    sampleDecode_singleFile (by simp [Dict.get, singleFileDict])
    (by simp [Dict.get, singleFileDict]) (by simp [Dict.get, singleFileDict])).1

/-- C2: if the metadata decodes to a dictionary with a string `name` and a `files` list
whose entries are dictionaries with a list `path` and an integer `length`, a record is
emitted whose Files has as many entries as the list, and entry i of Files carries the
`path` and the `length` of entry i of the list. -/
theorem multi_file_record (Decode : List Byte → Except String Value) (resp : Response)
    (info : Dict) (n : String) (items : List Value)
    (hdec : Decode resp.MetadataInfo = .ok (.dict info))
    (hname : Dict.get info "name" = some (.str n))
    (hfiles : Dict.get info "files" = some (.list items))
    (hshape : ∀ item ∈ items, FileEntryShape item) :
    ∃ bt, processResponse Decode resp = .emitted bt
      ∧ bt.Name = n
      ∧ bt.InfoHash = EncodeToString resp.InfoHash
      ∧ bt.Files.length = items.length
      ∧ ∀ (i : Nat) (f : Dict), items[i]? = some (.dict f) →
          ∃ e, bt.Files[i]? = some e
            ∧ Dict.get f "path" = some (.list e.Path)
            ∧ Dict.get f "length" = some (.int e.Length) := by
  obtain ⟨fs, hfs⟩ := convertFiles_of_shape items hshape
  refine ⟨_, processResponse_files_branch Decode resp info n items fs hdec hname hfiles hfs,
    rfl, rfl, convertFiles_length items fs hfs, ?_⟩
  intro i f hi
  obtain ⟨e, he, hconv⟩ := convertFiles_getElem items fs hfs i _ hi
  obtain ⟨f2, hf2, hp, hl⟩ := (convertFile_iff _ e).1 hconv
  cases hf2
  exact ⟨e, he, hp, hl⟩

/-- C2 at the two-file dictionary `multiFileDict`. -/
theorem multi_file_record_witness :
    ∃ bt, processResponse sampleDecode multiFileResponse = .emitted bt
      ∧ bt.Name = "d"
      ∧ bt.InfoHash = EncodeToString multiFileResponse.InfoHash
      ∧ bt.Files.length = 2
      ∧ ∀ (i : Nat) (f : Dict),
          [Value.dict [("length", .int 3), ("path", .list [.str "x"])],
           Value.dict [("length", .int 4), ("path", .list [.str "y", .str "z"])]][i]? = some (.dict f) →
          ∃ e, bt.Files[i]? = some e
            ∧ Dict.get f "path" = some (.list e.Path)
            ∧ Dict.get f "length" = some (.int e.Length) :=
  multi_file_record sampleDecode multiFileResponse multiFileDict "d"
    [.dict [("length", .int 3), ("path", .list [.str "x"])],
     .dict [("length", .int 4), ("path", .list [.str "y", .str "z"])]]
    sampleDecode_multiFile (by simp [Dict.get, multiFileDict]) (by simp [Dict.get, multiFileDict])
    (by
      intro item hmem
      simp only [List.mem_cons, List.mem_singleton, List.not_mem_nil, or_false] at hmem
      rcases hmem with rfl | rfl
      · exact ⟨_, [.str "x"], 3, rfl, by simp [Dict.get], by simp [Dict.get]⟩
      · exact ⟨_, [.str "y", .str "z"], 4, rfl, by simp [Dict.get], by simp [Dict.get]⟩)

/-- C3: if the metadata decodes to a dictionary without a `name` key, the iteration takes
the `continue` of line 52: no record, no panic, and the loop goes on with the responses
that follow. -/
theorem no_name_skipped (Decode : List Byte → Except String Value) (resp : Response)
    (info : Dict) (rest : List Response)
    (hdec : Decode resp.MetadataInfo = .ok (.dict info))
    (hname : Dict.get info "name" = none) :
    processResponse Decode resp = .skipped
      ∧ run Decode (resp :: rest) = run Decode rest := by
  have h : processResponse Decode resp = .skipped := by
    simp [processResponse, hdec, hname, assertMap]
  exact ⟨h, by simp [run, h]⟩

/-- C3 at the empty dictionary, followed by the single-file response. -/
theorem no_name_skipped_witness :
    processResponse sampleDecode emptyDictResponse = .skipped
      ∧ run sampleDecode [emptyDictResponse, singleFileResponse]
        = run sampleDecode [singleFileResponse] :=
  no_name_skipped sampleDecode emptyDictResponse [] [singleFileResponse]
    sampleDecode_emptyDict rfl

/-- C4 as stated fails: the dictionary `{"name": "a"}` has a `name` and neither `files`
nor `length`, and the iteration emits a record for it. -/
theorem name_only_not_discarded :
    sampleDecode nameOnlyResponse.MetadataInfo = .ok (.dict nameOnlyDict)
      ∧ Dict.get nameOnlyDict "name" = some (.str "a")
      ∧ Dict.get nameOnlyDict "files" = none
      ∧ Dict.get nameOnlyDict "length" = none
      ∧ processResponse sampleDecode nameOnlyResponse
        = .emitted { InfoHash := "0000000000000000000000000000000000000000", Name := "a",
                     Files := [], Length := 0 }
      ∧ (run sampleDecode [nameOnlyResponse]).records.length = 1 := by
  refine ⟨rfl, by simp [Dict.get, nameOnlyDict], by simp [Dict.get, nameOnlyDict],
    by simp [Dict.get, nameOnlyDict], rfl, rfl⟩

/-- C4 amended: if the metadata decodes to a dictionary with a string `name` n and neither
a `files` nor a `length` key, the iteration emits the record with Name n, no Files and
Length at its zero value. -/
theorem name_only_record (Decode : List Byte → Except String Value) (resp : Response)
    (info : Dict) (n : String)
    (hdec : Decode resp.MetadataInfo = .ok (.dict info))
    (hname : Dict.get info "name" = some (.str n))
    (hfiles : Dict.get info "files" = none)
    (hlen : Dict.get info "length" = none) :
    processResponse Decode resp
      = .emitted { InfoHash := EncodeToString resp.InfoHash, Name := n, Files := [], Length := 0 } := by
  simp [processResponse, hdec, hname, hlen, hfiles, assertMap, assertString]

/-- C4 amended, at the dictionary `{"name": "a"}`. -/
theorem name_only_record_witness :
    processResponse sampleDecode nameOnlyResponse1
      = .emitted { InfoHash := "0101010101010101010101010101010101010101", Name := "a",
                   Files := [], Length := 0 } :=
  name_only_record sampleDecode nameOnlyResponse1 nameOnlyDict "a" rfl
    (by simp [Dict.get, nameOnlyDict]) (by simp [Dict.get, nameOnlyDict])
    (by simp [Dict.get, nameOnlyDict])

/-- C5 as stated fails: for the dictionary `{"name": "a"}` a record is emitted although
neither the `files` branch nor the `length` branch filled a field of it. -/
theorem neither_field_populated :
    sampleDecode nameOnlyResponse.MetadataInfo = .ok (.dict nameOnlyDict)
      ∧ ∃ bt, processResponse sampleDecode nameOnlyResponse = .emitted bt
        ∧ ¬ FilledFromFiles nameOnlyDict bt
        ∧ ¬ FilledFromLength nameOnlyDict bt := by
  refine ⟨rfl, _, rfl, ?_, ?_⟩
  · rintro ⟨items, h, _⟩
    simp [Dict.get, nameOnlyDict] at h
  · rintro ⟨_, h⟩
    simp [Dict.get, nameOnlyDict] at h

/-- C5 amended: for every emitted record, either Files was filled from `files` and Length
is unset, or Length was filled from `length` and Files is unset, or the dictionary has
neither key and both are unset; Files and Length are never both filled. -/
theorem at_most_one_field_populated (Decode : List Byte → Except String Value)
    (resp : Response) (info : Dict) (bt : bitTorrent)
    (hdec : Decode resp.MetadataInfo = .ok (.dict info))
    (hemit : processResponse Decode resp = .emitted bt) :
    ((FilledFromFiles info bt ∧ bt.Length = 0)
      ∨ (FilledFromLength info bt ∧ bt.Files = [])
      ∨ (Dict.get info "files" = none ∧ Dict.get info "length" = none
          ∧ bt.Files = [] ∧ bt.Length = 0))
    ∧ ¬ (FilledFromFiles info bt ∧ FilledFromLength info bt) := by
  constructor
  · simp only [processResponse, hdec, assertMap] at hemit
    cases hn : Dict.get info "name" with
    | none => simp [hn] at hemit
    | some nv =>
      cases nv with
      | str n =>
        cases hf : Dict.get info "files" with
        | some fv =>
          cases fv with
          | list items =>
            cases hc : convertFiles items with
            | none => simp [hn, hf, hc, assertString, assertList] at hemit
            | some fs =>
              simp [hn, hf, hc, assertString, assertList] at hemit
              subst hemit
              exact Or.inl ⟨⟨items, hf, hc⟩, rfl⟩
          | int _ => simp [hn, hf, assertString, assertList] at hemit
          | str _ => simp [hn, hf, assertString, assertList] at hemit
          | dict _ => simp [hn, hf, assertString, assertList] at hemit
        | none =>
          cases hl : Dict.get info "length" with
          | none =>
            simp [hn, hf, hl, assertString] at hemit
            subst hemit
            exact Or.inr (Or.inr ⟨rfl, rfl, rfl, rfl⟩)
          | some lv =>
            cases lv with
            | int l =>
              simp [hn, hf, hl, assertString, assertInt] at hemit
              subst hemit
              exact Or.inr (Or.inl ⟨⟨hf, hl⟩, rfl⟩)
            | str _ => simp [hn, hf, hl, assertString, assertInt] at hemit
            | list _ => simp [hn, hf, hl, assertString, assertInt] at hemit
            | dict _ => simp [hn, hf, hl, assertString, assertInt] at hemit
      | int _ => simp [hn, assertString] at hemit
      | list _ => simp [hn, assertString] at hemit
      | dict _ => simp [hn, assertString] at hemit
  · rintro ⟨⟨items, h1, _⟩, h2, _⟩
    rw [h2] at h1
    cases h1

/-- C5 amended, at the dictionary `{"name": "a.txt", "length": 100}`. -/
theorem at_most_one_field_populated_witness :
    ((FilledFromFiles singleFileDict
          { InfoHash := "deadbeef", Name := "a.txt", Files := [], Length := 100 }
        ∧ (100 : Int) = 0)
      ∨ (FilledFromLength singleFileDict
          { InfoHash := "deadbeef", Name := "a.txt", Files := [], Length := 100 }
        ∧ ([] : List file) = [])
      ∨ (Dict.get singleFileDict "files" = none ∧ Dict.get singleFileDict "length" = none
          ∧ ([] : List file) = [] ∧ (100 : Int) = 0))
    ∧ ¬ (FilledFromFiles singleFileDict
          { InfoHash := "deadbeef", Name := "a.txt", Files := [], Length := 100 }
        ∧ FilledFromLength singleFileDict
          { InfoHash := "deadbeef", Name := "a.txt", Files := [], Length := 100 }) :=
  at_most_one_field_populated sampleDecode singleFileResponse singleFileDict
    { InfoHash := "deadbeef", Name := "a.txt", Files := [], Length := 100 }
    sampleDecode_singleFile rfl

/-- C6 as stated fails: the decoder can return an integer (the bencoding `i1e`), and then
the type assertion of line 48 fails and the process is ended by the panic. -/
theorem integer_metadata_panics :
    sampleDecode integerResponse.MetadataInfo = .ok (.int 1)
      ∧ processResponse sampleDecode integerResponse = .panicked
      ∧ (run sampleDecode [integerResponse]).aborted = true := by
  exact ⟨rfl, rfl, rfl⟩

/-- C6 amended: for a decoded value, the iteration ends by emitting a record or by
discarding the input exactly when the value is well typed: a dictionary without `name`,
or with a string `name` and either a `files` list of dictionaries that each have a list
`path` and an integer `length`, or no `files` and a `length` that is absent or an integer. -/
theorem total_iff_wellTyped (Decode : List Byte → Except String Value) (resp : Response)
    (metadata : Value) (hdec : Decode resp.MetadataInfo = .ok metadata) :
    (processResponse Decode resp = .skipped ∨ ∃ bt, processResponse Decode resp = .emitted bt)
      ↔ WellTyped metadata := by
  cases metadata with
  | int _ => simp [processResponse, hdec, assertMap, WellTyped]
  | str _ => simp [processResponse, hdec, assertMap, WellTyped]
  | list _ => simp [processResponse, hdec, assertMap, WellTyped]
  | dict info =>
    cases hn : Dict.get info "name" with
    | none => simp [processResponse, hdec, assertMap, WellTyped, hn]
    | some nv =>
      cases nv with
      | int _ => simp [processResponse, hdec, assertMap, assertString, WellTyped, hn]
      | list _ => simp [processResponse, hdec, assertMap, assertString, WellTyped, hn]
      | dict _ => simp [processResponse, hdec, assertMap, assertString, WellTyped, hn]
      | str n =>
        cases hf : Dict.get info "files" with
        | none =>
          cases hl : Dict.get info "length" with
          | none => simp [processResponse, hdec, assertMap, assertString, WellTyped, hn, hf, hl]
          | some lv =>
            cases lv <;>
              simp [processResponse, hdec, assertMap, assertString, assertInt, WellTyped, hn, hf, hl]
        | some fv =>
          cases fv with
          | int _ =>
            simp [processResponse, hdec, assertMap, assertString, assertList, WellTyped, hn, hf]
          | str _ =>
            simp [processResponse, hdec, assertMap, assertString, assertList, WellTyped, hn, hf]
          | dict _ =>
            simp [processResponse, hdec, assertMap, assertString, assertList, WellTyped, hn, hf]
          | list items =>
            cases hc : convertFiles items with
            | none =>
              have hno : ¬ ∀ item ∈ items, FileEntryShape item := by
                intro hall
                obtain ⟨fs, hfs⟩ := convertFiles_of_shape items hall
                rw [hc] at hfs
                cases hfs
              simp [processResponse, hdec, assertMap, assertString, assertList, WellTyped,
                hn, hf, hc]
              simpa using hno
            | some fs =>
              have hall := shape_of_convertFiles items fs hc
              simp [processResponse, hdec, assertMap, assertString, assertList, WellTyped,
                hn, hf, hc]
              exact hall

/-- C6 amended, at the dictionary `{"name": "a.txt", "length": 100}`: a record is emitted,
so the dictionary is well typed. -/
theorem total_iff_wellTyped_witness :
    processResponse sampleDecode singleFileResponse
        = .emitted { InfoHash := "deadbeef", Name := "a.txt", Files := [], Length := 100 }
      ∧ WellTyped (.dict singleFileDict) :=
  ⟨rfl, (total_iff_wellTyped sampleDecode singleFileResponse (.dict singleFileDict)
    sampleDecode_singleFile).1 (Or.inr ⟨_, rfl⟩)⟩

/-- C7: if the decoder returns an error for the metadata bytes of a response, the iteration
takes the `continue` of line 44: no record, no panic, and the loop goes on with the
responses that follow. -/
theorem decode_error_skipped (Decode : List Byte → Except String Value) (resp : Response)
    (err : String) (rest : List Response)
    (hdec : Decode resp.MetadataInfo = .error err) :
    processResponse Decode resp = .skipped
      ∧ (processResponse Decode resp).record = none
      ∧ run Decode (resp :: rest) = run Decode rest := by
  have h : processResponse Decode resp = .skipped := by
    simp [processResponse, hdec]
  exact ⟨h, by simp [h, Outcome.record], by simp [run, h]⟩

/-- C7 at a response whose metadata is not bencode, followed by the single-file response. -/
theorem decode_error_skipped_witness :
    processResponse sampleDecode garbageResponse = .skipped
      ∧ (processResponse sampleDecode garbageResponse).record = none
      ∧ run sampleDecode [garbageResponse, singleFileResponse]
        = run sampleDecode [singleFileResponse] :=
  decode_error_skipped sampleDecode garbageResponse "invalid bencode" [singleFileResponse]
    sampleDecode_garbage

/-- C8 as stated fails: when the first response panics, the second one is never read, so
the valid single-file response that follows it contributes its record to the per-response
transformation and not to the emitted sequence. -/
theorem records_after_panic_lost :
    (run sampleDecode [integerResponse, singleFileResponse]).records = []
      ∧ [integerResponse, singleFileResponse].filterMap
          (fun resp => (processResponse sampleDecode resp).record)
        = [{ InfoHash := "deadbeef", Name := "a.txt", Files := [], Length := 100 }]
      ∧ (run sampleDecode [integerResponse, singleFileResponse]).records
        ≠ [integerResponse, singleFileResponse].filterMap
          (fun resp => (processResponse sampleDecode resp).record) := by
  refine ⟨rfl, rfl, ?_⟩
  intro h
  have hlen := congrArg List.length h
  revert hlen
  change (0 : Nat) = 1 → False
  decide

/-- C8 amended: for every finite sequence of responses, the emitted records are the
per-response transformation applied in arrival order, discarded responses removed, to the
responses that come before the first one that panics (to all of them when none panics);
each response contributes at most one record, and the process is aborted exactly when
some response panics. -/
theorem records_eq_filterMap_until_panic (Decode : List Byte → Except String Value)
    (resps : List Response) :
    (run Decode resps).records
        = (resps.takeWhile fun resp => !(processResponse Decode resp).isPanic).filterMap
            (fun resp => (processResponse Decode resp).record)
      ∧ (run Decode resps).aborted = resps.any (fun resp => (processResponse Decode resp).isPanic)
      ∧ (run Decode resps).records.length ≤ resps.length := by
  induction resps with
  | nil => simp [run]
  | cons resp rest ih =>
    obtain ⟨ih1, ih2, ih3⟩ := ih
    cases h : processResponse Decode resp with
    | skipped =>
      have hp : List.takeWhile (fun r => !(processResponse Decode r).isPanic) (resp :: rest)
          = resp :: List.takeWhile (fun r => !(processResponse Decode r).isPanic) rest := by
        rw [List.takeWhile_cons]
        simp [h, Outcome.isPanic]
      have hr : (processResponse Decode resp).record = none := by simp [h, Outcome.record]
      have hrun : run Decode (resp :: rest) = run Decode rest := by simp [run, h]
      rw [hrun, hp]
      refine ⟨?_, ?_, ?_⟩
      · rw [List.filterMap_cons]
        simp only [hr]
        exact ih1
      · rw [ih2]
        simp [h, Outcome.isPanic]
      · simp only [List.length_cons]
        omega
    | emitted bt =>
      have hp : List.takeWhile (fun r => !(processResponse Decode r).isPanic) (resp :: rest)
          = resp :: List.takeWhile (fun r => !(processResponse Decode r).isPanic) rest := by
        rw [List.takeWhile_cons]
        simp [h, Outcome.isPanic]
      have hr : (processResponse Decode resp).record = some bt := by simp [h, Outcome.record]
      have hrun : run Decode (resp :: rest)
          = { records := bt :: (run Decode rest).records, aborted := (run Decode rest).aborted } := by
        simp [run, h]
      rw [hrun, hp]
      refine ⟨?_, ?_, ?_⟩
      · rw [List.filterMap_cons]
        simp only [hr]
        rw [ih1]
      · simp only [ih2]
        simp [h, Outcome.isPanic]
      · simp only [List.length_cons]
        omega
    | panicked =>
      have hp : List.takeWhile (fun r => !(processResponse Decode r).isPanic) (resp :: rest)
          = [] := by
        rw [List.takeWhile_cons]
        simp [h, Outcome.isPanic]
      have hrun : run Decode (resp :: rest) = { records := [], aborted := true } := by
        simp [run, h]
      rw [hrun, hp]
      simp [h, Outcome.isPanic]

set_option maxRecDepth 100000 in
theorem sha1_nameOnly :
    sha1 (bytesOf "d4:name1:ae")
      = [0x9e, 0x3f, 0x71, 0x17, 0x8c, 0x57, 0x7d, 0xcb, 0x03, 0x2d,
         0x2d, 0x7d, 0xfb, 0xb4, 0x36, 0xd2, 0x17, 0x69, 0xd4, 0x56] := by
  decide

theorem validate_honestSession :
    validate honestSession
      = some { InfoHash := honestSession.InfoHash, MetadataInfo := bytesOf "d4:name1:ae" } := by
  have h : sha1 honestSession.Metadata = honestSession.InfoHash := sha1_nameOnly
  simp only [validate, h, if_true]
  rfl

theorem forgedSession_mismatch : sha1 forgedSession.Metadata ≠ forgedSession.InfoHash := by
  have h : sha1 forgedSession.Metadata = honestSession.InfoHash := sha1_nameOnly
  rw [h]
  decide

theorem validate_eq_some (s : Session) (resp : Response) (h : validate s = some resp) :
    sha1 s.Metadata = s.InfoHash ∧ resp = { InfoHash := s.InfoHash, MetadataInfo := s.Metadata } := by
  unfold validate at h
  by_cases hd : sha1 s.Metadata = s.InfoHash
  · rw [if_pos hd] at h
    exact ⟨hd, (Option.some.inj h).symm⟩
  · rw [if_neg hd] at h
    cases h

theorem validate_eq_none (s : Session) (h : sha1 s.Metadata ≠ s.InfoHash) : validate s = none := by
  unfold validate
  rw [if_neg h]

theorem mem_wireResponses (sessions : List Session) (resp : Response)
    (h : resp ∈ wireResponses sessions) :
    ∃ s ∈ sessions, sha1 s.Metadata = s.InfoHash
      ∧ resp = { InfoHash := s.InfoHash, MetadataInfo := s.Metadata } := by
  obtain ⟨s, hs, hv⟩ := List.mem_filterMap.1 h
  exact ⟨s, hs, validate_eq_some s resp hv⟩

theorem mem_run_records (Decode : List Byte → Except String Value) (resps : List Response)
    (bt : bitTorrent) (h : bt ∈ (run Decode resps).records) :
    ∃ resp ∈ resps, processResponse Decode resp = .emitted bt := by
  induction resps with
  | nil => simp [run] at h
  | cons resp rest ih =>
    cases hp : processResponse Decode resp with
    | skipped =>
      have hrun : run Decode (resp :: rest) = run Decode rest := by simp [run, hp]
      rw [hrun] at h
      obtain ⟨r, hr, he⟩ := ih h
      exact ⟨r, List.mem_cons_of_mem _ hr, he⟩
    | emitted bt2 =>
      have hrun : run Decode (resp :: rest)
          = { records := bt2 :: (run Decode rest).records, aborted := (run Decode rest).aborted } := by
        simp [run, hp]
      rw [hrun] at h
      rcases List.mem_cons.1 h with rfl | h
      · exact ⟨resp, List.mem_cons_self _ _, hp⟩
      · obtain ⟨r, hr, he⟩ := ih h
        exact ⟨r, List.mem_cons_of_mem _ hr, he⟩
    | panicked =>
      have hrun : run Decode (resp :: rest) = { records := [], aborted := true } := by
        simp [run, hp]
      rw [hrun] at h
      cases h

/-- C9: with the validation of the metadata session in front of the loop, every response
on the channel has metadata whose SHA-1 digest is its info-hash; every emitted record is the
record of a session whose metadata digest equals its info-hash byte for byte, with that
info-hash in hexadecimal as InfoHash; and sessions whose metadata hashes to another value
put nothing on the channel and yield zero records. -/
theorem record_only_if_validated (Decode : List Byte → Except String Value)
    (sessions : List Session) :
    (∀ resp ∈ wireResponses sessions, sha1 resp.MetadataInfo = resp.InfoHash)
      ∧ (∀ bt ∈ (run Decode (wireResponses sessions)).records,
          ∃ s ∈ sessions, sha1 s.Metadata = s.InfoHash
            ∧ processResponse Decode { InfoHash := s.InfoHash, MetadataInfo := s.Metadata }
              = .emitted bt
            ∧ bt.InfoHash = EncodeToString s.InfoHash)
      ∧ ((∀ s ∈ sessions, sha1 s.Metadata ≠ s.InfoHash) →
          wireResponses sessions = []
            ∧ (run Decode (wireResponses sessions)).records = []) := by
  refine ⟨?_, ?_, ?_⟩
  · intro resp hresp
    obtain ⟨s, _, hd, rfl⟩ := mem_wireResponses sessions resp hresp
    exact hd
  · intro bt hbt
    obtain ⟨resp, hresp, hemit⟩ := mem_run_records Decode _ bt hbt
    obtain ⟨s, hs, hd, rfl⟩ := mem_wireResponses sessions resp hresp
    refine ⟨s, hs, hd, hemit, ?_⟩
    have hrec := emitted_infoHash_eq Decode _ bt hemit
    exact hrec
  · intro hall
    have hnil : wireResponses sessions = [] := by
      unfold wireResponses
      rw [List.filterMap_eq_nil_iff]
      intro s hs
      exact validate_eq_none s (hall s hs)
    exact ⟨hnil, by rw [hnil]; rfl⟩

/-- C9 at a peer that serves `d4:name1:ae` for an info-hash of twenty zero bytes (zero
records) next to a session for the same bytes under their SHA-1 digest (one record). -/
theorem record_only_if_validated_witness :
    sha1 forgedSession.Metadata ≠ forgedSession.InfoHash
      ∧ wireResponses [forgedSession] = []
      ∧ (run sampleDecode (wireResponses [forgedSession])).records = []
      ∧ sha1 honestSession.Metadata = honestSession.InfoHash
      ∧ processResponse sampleDecode
          { InfoHash := honestSession.InfoHash, MetadataInfo := honestSession.Metadata }
        = .emitted { InfoHash := "9e3f71178c577dcb032d2d7dfbb436d21769d456", Name := "a",
                     Files := [], Length := 0 } := by
  have hforged := (record_only_if_validated sampleDecode [forgedSession]).2.2
    (by
      intro s hs
      rw [List.mem_singleton.1 hs]
      exact forgedSession_mismatch)
  have hhonest := (record_only_if_validated sampleDecode [honestSession]).1
    { InfoHash := honestSession.InfoHash, MetadataInfo := honestSession.Metadata }
    (by
      unfold wireResponses
      rw [List.filterMap_cons_some validate_honestSession]
      exact List.mem_cons_self _ _)
  exact ⟨forgedSession_mismatch, hforged.1, hforged.2, hhonest, rfl⟩

/-- C10: if the metadata decodes to a dictionary with a string `name`, a well-formed
`files` list and also a `length` key (of any value), the `files` branch is taken: the
emitted record has its Files built from `files`, entry by entry, and its Length at the
zero value. -/
theorem files_take_precedence (Decode : List Byte → Except String Value) (resp : Response)
    (info : Dict) (n : String) (items : List Value) (lengthValue : Value)
    (hdec : Decode resp.MetadataInfo = .ok (.dict info))
    (hname : Dict.get info "name" = some (.str n))
    (hfiles : Dict.get info "files" = some (.list items))
    (_hlen : Dict.get info "length" = some lengthValue)
    (hshape : ∀ item ∈ items, FileEntryShape item) :
    ∃ fs, convertFiles items = some fs
      ∧ processResponse Decode resp
        = .emitted { InfoHash := EncodeToString resp.InfoHash, Name := n, Files := fs, Length := 0 }
      ∧ fs.length = items.length
      ∧ ∀ (i : Nat) (f : Dict), items[i]? = some (.dict f) →
          ∃ e, fs[i]? = some e
            ∧ Dict.get f "path" = some (.list e.Path)
            ∧ Dict.get f "length" = some (.int e.Length) := by
  obtain ⟨fs, hfs⟩ := convertFiles_of_shape items hshape
  refine ⟨fs, hfs, processResponse_files_branch Decode resp info n items fs hdec hname hfiles hfs,
    convertFiles_length items fs hfs, ?_⟩
  intro i f hi
  obtain ⟨e, he, hconv⟩ := convertFiles_getElem items fs hfs i _ hi
  obtain ⟨f2, hf2, hp, hl⟩ := (convertFile_iff _ e).1 hconv
  cases hf2
  exact ⟨e, he, hp, hl⟩

/-- C10 at the dictionary `{"files": [{"length": 3, "path": ["x"]}], "length": 9,
"name": "d"}`: the record has the one file and Length 0, not 9. -/
theorem files_take_precedence_witness :
    ∃ fs, convertFiles [Value.dict [("length", .int 3), ("path", .list [.str "x"])]] = some fs
      ∧ processResponse sampleDecode bothKeysResponse
        = .emitted { InfoHash := EncodeToString bothKeysResponse.InfoHash, Name := "d",
                     Files := fs, Length := 0 }
      ∧ fs.length = 1
      ∧ ∀ (i : Nat) (f : Dict),
          [Value.dict [("length", .int 3), ("path", .list [.str "x"])]][i]? = some (.dict f) →
          ∃ e, fs[i]? = some e
            ∧ Dict.get f "path" = some (.list e.Path)
            ∧ Dict.get f "length" = some (.int e.Length) :=
  files_take_precedence sampleDecode bothKeysResponse bothKeysDict "d"
    [.dict [("length", .int 3), ("path", .list [.str "x"])]] (.int 9)
    sampleDecode_bothKeys (by simp [Dict.get, bothKeysDict]) (by simp [Dict.get, bothKeysDict])
    (by simp [Dict.get, bothKeysDict])
    (by
      intro item hmem
      simp only [List.mem_singleton] at hmem
      subst hmem
      exact ⟨_, [.str "x"], 3, rfl, by simp [Dict.get], by simp [Dict.get]⟩)

end DHTGo
